import Mathlib

/-!
The µOS++ / CMSIS++ counting semaphore interface and diagnostic trace channel.

Shallow embedding of

* `include/cmsis-plus/rtos/os-semaphore.h` : the `semaphore` class, its
  `attributes` / `binary_attributes` value objects and the inline accessors;
* `src/cmsis-plus/diag/trace.cpp` : the weak default trace functions
  `write`, `vprintf`, `puts`, `putchar` and the C entry point `trace_write`.

Machine integers are mathematical integers with explicit reduction modulo
`2 ^ w`.  The bodies of `post`, `wait`, `try_wait`, `timed_wait`, `reset` and
of the semaphore constructors live in `os-semaphore.cpp`, which is not among
the sources; they are modelled from the specification and marked as such.
-/

namespace os

/-! ## Machine integers -/

/-- Value of the low `w` bits of `n` read as a two's complement signed integer:
the result of a C cast to a signed type of `w` bits. -/
def to_signed (w : Nat) (n : Int) : Int :=
  let m := n % (2 : Int) ^ w
  if m < (2 : Int) ^ (w - 1) then m else m - (2 : Int) ^ w

/-- Value of the low `w` bits of `n` read as an unsigned integer:
the result of a C cast to an unsigned type of `w` bits. -/
def to_unsigned (w : Nat) (n : Int) : Int :=
  n % (2 : Int) ^ w

/-- Width in bits of `int` on the supported targets. -/
def int_bits : Nat := 32

/-- The C cast `(int) x`. -/
def to_int (x : Int) : Int := to_signed int_bits x

/-- The constant `EOF` of `<cstdio>`. -/
def EOF : Int := -1

namespace trace

/-! ## `trace.cpp` -/

/-- The macro `OS_INTEGER_TRACE_PRINTF_TMP_ARRAY_SIZE`, the size of the stack buffer of
`vprintf`. -/
def OS_INTEGER_TRACE_PRINTF_TMP_ARRAY_SIZE : Nat := 200

/-- A byte buffer handed to the trace channel. -/
abbrev buffer := List Nat

/-- An output channel: the function called as `write (buf, nbyte)`, returning a
`ssize_t`.  The weak default below is one such channel; an application may
link another. -/
abbrev sink := buffer → Int → Int

/-- Function `ssize_t write (const void* buf, std::size_t nbyte)`, the weak default:
`return (ssize_t) nbyte;`.  `sz` is the width in bits of `std::size_t` and
`ssize_t` on the target (32 on ARM EABI, 64 on an LP64 host); `nbyte` is the
value of the `std::size_t` argument. -/
def write (sz : Nat) (_buf : buffer) (nbyte : Int) : Int :=
  to_signed sz nbyte

/-- Value of `strlen (s)` for a string given as the list of its bytes before the
terminating zero. -/
def strlen (s : buffer) : Int := s.length

/-- Outcome of a trace function that talks to the channel: the `int` it
returns and the `write` requests it issued, in order, each with the buffer and
the byte count passed. -/
structure outcome where
  ret : Int
  calls : List (buffer × Int)
deriving DecidableEq, Repr

/-- Model of `::vsnprintf (buf, size, format, args)`.  `formatted` is the
complete expansion of `format` with `args` (`none` for an encoding error).
At most `size - 1` characters are stored, followed by the terminating zero;
the value returned is the length of the complete expansion, whether or not it
fitted, and a negative value on error. -/
def vsnprintf (size : Nat) (formatted : Option buffer) : buffer × Int :=
  match formatted with
  | none => ([], -1)
  | some out =>
    if (out.length : Int) < (2 : Int) ^ (int_bits - 1) then
      (out.take (size - 1), (out.length : Int))
    else ([], -1)

/-- Function `int vprintf (const char* format, std::va_list args)`:
```
char buf[OS_INTEGER_TRACE_PRINTF_TMP_ARRAY_SIZE];
int ret = ::vsnprintf (buf, sizeof(buf), format, args);
if (ret > 0)
  ret = (int) write (buf, (size_t) ret);
return ret;
```
`sz` is the width of `size_t`, `w` the channel. -/
def vprintf (sz : Nat) (w : sink) (formatted : Option buffer) : outcome :=
  let r := vsnprintf OS_INTEGER_TRACE_PRINTF_TMP_ARRAY_SIZE formatted
  let buf := r.1
  let ret := r.2
  if ret > 0 then
    let nbyte := to_unsigned sz ret
    { ret := to_int (w buf nbyte), calls := [(buf, nbyte)] }
  else
    { ret := ret, calls := [] }

/-- Function `int puts (const char* s)`:
```
int ret = (int) write (s, strlen (s));
if (ret > 0)
  ret = (int) write ("\n", 1); // Add a line terminator
if (ret > 0) return ret; else return EOF;
```
The byte `10` is the line terminator. -/
def puts (w : sink) (s : buffer) : outcome :=
  let ret1 := to_int (w s (strlen s))
  let calls1 := [(s, strlen s)]
  let ret2 := if ret1 > 0 then to_int (w [10] 1) else ret1
  let calls2 := if ret1 > 0 then calls1 ++ [([10], 1)] else calls1
  if ret2 > 0 then { ret := ret2, calls := calls2 }
  else { ret := EOF, calls := calls2 }

/-- Function `int putchar (int c)`: writes one byte and returns `c`, or `EOF` when the
channel did not report a positive count. -/
def putchar (w : sink) (c : Int) : outcome :=
  let ret := to_int (w [(to_unsigned 8 c).toNat] 1)
  if ret > 0 then { ret := c, calls := [([(to_unsigned 8 c).toNat], 1)] }
  else { ret := EOF, calls := [([(to_unsigned 8 c).toNat], 1)] }

end trace

/-- The C entry point `ssize_t trace_write (const void* buf, std::size_t nbyte)`:
`return trace::write (buf, nbyte);`. -/
def trace_write (sz : Nat) (buf : trace.buffer) (nbyte : Int) : Int :=
  trace.write sz buf nbyte

namespace rtos

/-! ## `os-semaphore.h` -/

/-- Modelled from the spec: `result_t` and its values are declared in
`os-decls.h`, which is not among the sources.  The values are the error kinds
of the specification (section 7) under the POSIX names the header uses in its
`@retval` lines, plus `ok`. -/
inductive result_t where
  | ok
  | EPERM
  | EAGAIN
  | EWOULDBLOCK
  | EINVAL
  | ETIMEDOUT
  | EDEADLK
  | EINTR
  | ENOTRECOVERABLE
deriving DecidableEq, Repr

/-- Modelled from the spec: a thread handle as the waiting list sees it.  The
thread class and the scheduler are not among the sources; the specification
gives a blocked thread an identity and a scheduling priority (a larger number
is a more urgent thread). -/
structure thread where
  id : Nat
  prio : Nat
deriving DecidableEq, Repr

/-- Modelled from the spec: `Waiting_threads_list` is declared in `os-decls.h`,
which is not among the sources.  The specification describes it as the ordered
collection of blocked-thread references, most urgent first, arrival order
among equal priorities. -/
abbrev Waiting_threads_list := List thread

/-- Modelled from the spec: `clocked_attributes`, the base class of the
semaphore attributes, is declared in `os-decls.h`.  It stores the name given
to the constructor; a null pointer is replaced by `"-"`. -/
structure clocked_attributes where
  name : String
deriving DecidableEq, Repr

/-- Modelled from the spec: the constructor `clocked_attributes { name }` of
`os-decls.h`; `none` is the null pointer, for which `"-"` is assigned. -/
def clocked_attributes.new (name : Option String) : clocked_attributes :=
  { name := name.getD "-" }

/-- Class `class semaphore : public named_object`, with the members of the
configuration without `OS_INCLUDE_RTOS_PORT_SEMAPHORE`:
```
Waiting_threads_list list_;
clock* clock_ = nullptr;
const count_t initial_count_;
volatile count_t count_ = 0;
const count_t max_count_ = max_count_value;
```
`name_` is the name kept by the base class `named_object`; `clock_` is the
address of the clock, `none` for `nullptr`.  The `count_t` members hold the
value of the 16-bit signed integer. -/
structure semaphore where
  name_ : String
  list_ : Waiting_threads_list
  clock_ : Option Nat
  initial_count_ : Int
  count_ : Int
  max_count_ : Int
deriving DecidableEq, Repr

namespace semaphore

/-- Width in bits of `count_t = int16_t`. -/
def count_bits : Nat := 16

/-- Conversion to `count_t`: the value a 16-bit signed member holds after an
assignment or an increment. -/
def to_count_t (n : Int) : Int := to_signed count_bits n

/-- The values a `count_t` can hold. -/
def is_count_t (n : Int) : Prop := -32768 ≤ n ∧ n ≤ 32767

instance (n : Int) : Decidable (is_count_t n) := by
  unfold is_count_t; infer_instance

/-- Constant `static constexpr count_t max_count_value = 0x7FFF;`. -/
def max_count_value : Int := 0x7FFF

/-- Class `class attributes : public clocked_attributes` with its two public members
```
count_t sm_initial_count = 0;
count_t sm_max_count = max_count_value;
```
-/
structure attributes extends clocked_attributes where
  sm_initial_count : Int
  sm_max_count : Int
deriving DecidableEq, Repr

/-- Constructor `attributes (const char* name)`: passes the name to the base
class and leaves both members at their default member initialisers. -/
def attributes.new (name : Option String) : attributes :=
  { clocked_attributes.new name with
    sm_initial_count := 0
    sm_max_count := max_count_value }

/-- Protected constructor `attributes (const char* name, count_t max_count)`:
passes the name to the base class and sets `sm_max_count (max_count)`;
`sm_initial_count` keeps its default member initialiser. -/
def attributes.new_max_count (name : Option String) (max_count : Int) : attributes :=
  { clocked_attributes.new name with
    sm_initial_count := 0
    sm_max_count := max_count }

/-- Class `class binary_attributes : public attributes`, which adds no member. -/
structure binary_attributes extends attributes
deriving DecidableEq, Repr

/-- Constructor `binary_attributes (const char* name)`:
`attributes { name, 1 }`, the protected constructor. -/
def binary_attributes.new (name : Option String) : binary_attributes :=
  { attributes.new_max_count name 1 with }

/-- Accessor `inline count_t initial_value (void) const`: `return initial_count_;`.
The second component is the object after the call. -/
def initial_value (s : semaphore) : Int × semaphore := (s.initial_count_, s)

/-- Accessor `inline count_t max_value (void) const`: `return max_count_;`.
The second component is the object after the call. -/
def max_value (s : semaphore) : Int × semaphore := (s.max_count_, s)

/-- Operator `bool operator== (const semaphore& rhs) const`: `return this == &rhs;`,
on the addresses of the two objects. -/
def eq_addr (this_addr rhs_addr : Nat) : Bool := this_addr == rhs_addr

/-! ### Member functions defined in `os-semaphore.cpp`

The header declares them; their bodies are not among the sources.  Each one is
modelled from the section of the specification that describes it, with the
results the header lists in its `@retval` lines.  A call is one critical
section: it maps the object before the call to the object after it, the value
returned, and the threads handed to the scheduler as ready. -/

/-- Modelled from the spec: what a member function of `os-semaphore.cpp` does
in one critical section.  `res` is the `result_t` returned, `none` when the
caller was registered in the waiting list and suspended instead of returning;
`sem` is the object afterwards; `woken` lists the waiters removed from the
waiting list and made ready, in the order they were removed: the suspended
call of each of them returns `ok`. -/
structure effect where
  res : Option result_t
  sem : semaphore
  woken : List thread
deriving DecidableEq, Repr

/-- Modelled from the spec: the calling context of a thread-side operation,
as the scheduler (not among the sources) reports it.  `self` is the calling
thread, `in_isr` whether the call is made from an interrupt service routine,
`deadlock` the result of the deadlock check of section 4.3, whose condition
the specification leaves to the scheduler. -/
structure caller where
  self : thread
  in_isr : Bool
  deadlock : Bool
deriving DecidableEq, Repr

/-- Modelled from the spec: registration of a thread in the waiting list
(`Waiting_threads_list`, declared in `os-decls.h`).  The list is "ordered by
thread scheduling priority (ties broken by arrival order — FIFO among equal
priority)": the newcomer goes in front of the first waiter of strictly lower
priority, behind every waiter of the same or a higher priority. -/
def link (t : thread) : Waiting_threads_list → Waiting_threads_list
  | [] => [t]
  | v :: rest => if v.prio < t.prio then t :: v :: rest else v :: link t rest

/-- Modelled from the spec: removal of one thread from the waiting list, the
others staying in place (a thread "appears in at most one semaphore's waiting
list at a time"). -/
def unlink (t : thread) (l : Waiting_threads_list) : Waiting_threads_list :=
  l.erase t

/-- Modelled from the spec: the constructor `semaphore (const attributes& attr)`
of `os-semaphore.cpp`.  The object takes its name and both counts from the
attributes, starts with `count` equal to the initial count and an empty
waiting list; "`initial_count <= max_count` at construction, else construction
is rejected" (`none`). -/
def new (attr : attributes) : Option semaphore :=
  if attr.sm_initial_count ≤ attr.sm_max_count then
    some { name_ := attr.name
           list_ := []
           clock_ := none
           initial_count_ := attr.sm_initial_count
           count_ := attr.sm_initial_count
           max_count_ := attr.sm_max_count }
  else none

/-- Modelled from the spec: `count_t value (void) const` of `os-semaphore.cpp`,
section 4.6: "Returns current `count`"; no error conditions.  The second
component is the object after the call. -/
def value (s : semaphore) : Int × semaphore := (s.count_, s)

/-- Modelled from the spec: `bool _try_wait (void)`, declared in the header and
defined in `os-semaphore.cpp`: the step shared by the wait operations, "if
`count > 0`, decrement and succeed", else report that no unit was taken. -/
def _try_wait (s : semaphore) : Bool × semaphore :=
  if s.count_ > 0 then (true, { s with count_ := to_count_t (s.count_ - 1) })
  else (false, s)

/-- Modelled from the spec: `result_t post (void)` of `os-semaphore.cpp`,
section 4.2: "if `count == max_count`, fails with `AGAIN`.  Otherwise
increments `count`.  If the waiting list is non-empty, removes the
highest-priority waiter and transitions it to ready (its wait call will
observe success)"; "if the internal transition cannot complete consistently
(e.g., an unrecoverable internal fault), fails with `NOTRECOVERABLE`".

* `fault` says whether the internal transition cannot complete; the operation
  then "fully aborts before any state change" (section 7).
* The highest-priority waiter is the head of the priority-ordered list.
* The unit goes to the waiter by hand-off, "the transfer of a just-freed unit
  directly from `post` to a specific woken waiter" (glossary): for the woken
  thread "the decrement was already accounted for by post's hand-off, not by
  the thread" (4.3), "counter already decremented by the hand-off" (4.5).
  With a waiter the increment and the hand-off cancel and `count` is left as
  it was, so that no waiter is "left in the list while count is already
  nonzero" (5). -/
def post (fault : Bool) (s : semaphore) : effect :=
  if s.count_ = s.max_count_ then
    { res := some result_t.EAGAIN, sem := s, woken := [] }
  else if fault then
    { res := some result_t.ENOTRECOVERABLE, sem := s, woken := [] }
  else
    match s.list_ with
    | [] =>
      { res := some result_t.ok
        sem := { s with count_ := to_count_t (s.count_ + 1) }
        woken := [] }
    | w :: rest =>
      { res := some result_t.ok
        sem := { s with list_ := rest }
        woken := [w] }

/-- Modelled from the spec: `result_t try_wait (void)` of `os-semaphore.cpp`,
section 4.4: "if `count > 0`, decrement and succeed; else fail with
`WOULDBLOCK` immediately — never registers in the waiting list, never
suspends.  Same deadlock check as wait applies if the caller context would
otherwise be invalid (`DEADLK`)".  The results are those of section 6 and of
the header (`EPERM`, `EWOULDBLOCK`, `ENOTRECOVERABLE`, `EDEADLK`, `EINTR`):

* `EPERM` for a call from an interrupt service routine, as the header states
  for this function ("Cannot be invoked from an Interrupt Service Routines");
  section 4.4 calls the operation valid from interrupt context while section
  6 lists `PERM` among its results, and the header, being the source, is
  followed;
* the unit is taken when `count > 0`, as on the fast path of `wait`;
* with no unit, the deadlock check of `wait` gives `EDEADLK`;
* `fault` (an unrecoverable internal condition, "Semaphore wait failed") and
  `signalled` (an external interruption, "The operation was interrupted") are
  the verdicts of the kernel for the two remaining results, which `wait` too
  meets only when no unit is available;
* otherwise `EWOULDBLOCK`.

Every failure leaves the object as it was (section 7). -/
def try_wait (c : caller) (signalled fault : Bool) (s : semaphore) : effect :=
  if c.in_isr then
    { res := some result_t.EPERM, sem := s, woken := [] }
  else if (_try_wait s).1 then
    { res := some result_t.ok, sem := (_try_wait s).2, woken := [] }
  else if c.deadlock then
    { res := some result_t.EDEADLK, sem := s, woken := [] }
  else if fault then
    { res := some result_t.ENOTRECOVERABLE, sem := s, woken := [] }
  else if signalled then
    { res := some result_t.EINTR, sem := s, woken := [] }
  else
    { res := some result_t.EWOULDBLOCK, sem := s, woken := [] }

/-- Modelled from the spec: `result_t wait (void)` of `os-semaphore.cpp`,
section 4.3: `PERM` from interrupt context; "if `count > 0`, decrement and
return success immediately"; otherwise `DEADLK` when the deadlock check
fires; otherwise "insert the thread into the waiting list ordered by
priority" and suspend (`res = none`).  The suspended call returns later:
`ok` when `post` or `reset` hands the thread a unit (the thread is then in
their `woken`), `EINTR` or `ENOTRECOVERABLE` through the events
`interrupted` and `faulted` below. -/
def wait (c : caller) (s : semaphore) : effect :=
  if c.in_isr then
    { res := some result_t.EPERM, sem := s, woken := [] }
  else if (_try_wait s).1 then
    { res := some result_t.ok, sem := (_try_wait s).2, woken := [] }
  else if c.deadlock then
    { res := some result_t.EDEADLK, sem := s, woken := [] }
  else
    { res := none, sem := { s with list_ := link c.self s.list_ }, woken := [] }

/-- Modelled from the spec: `result_t timed_wait (clock::duration_t timeout)` of
`os-semaphore.cpp`, section 4.5: `PERM` from interrupt context; `INVAL` for a
timeout the clock cannot express (`timeout_valid = false`, the verdict of the
clock, which is not among the sources) "before taking any other action";
"fast path identical to wait if `count > 0`"; otherwise the thread is
registered in the waiting list, a timer is armed and the thread is suspended
(`res = none`).  The suspended call returns later as that of `wait` does, or
with `ETIMEDOUT` through the event `timer_fired`. -/
def timed_wait (c : caller) (timeout_valid : Bool) (s : semaphore) : effect :=
  if c.in_isr then
    { res := some result_t.EPERM, sem := s, woken := [] }
  else if !timeout_valid then
    { res := some result_t.EINVAL, sem := s, woken := [] }
  else if (_try_wait s).1 then
    { res := some result_t.ok, sem := (_try_wait s).2, woken := [] }
  else if c.deadlock then
    { res := some result_t.EDEADLK, sem := s, woken := [] }
  else
    { res := none, sem := { s with list_ := link c.self s.list_ }, woken := [] }

/-- Modelled from the spec: the timer of a `timed_wait` fires, section 4.5:
"the timer fires first and removes the thread from the waiting list before
any post claims it → fails with `ETIMEDOUT`; the counter is left untouched";
when the thread is no longer in the list the event "is a no-op". -/
def timer_fired (t : thread) (s : semaphore) : effect :=
  if t ∈ s.list_ then
    { res := some result_t.ETIMEDOUT, sem := { s with list_ := unlink t s.list_ }, woken := [] }
  else
    { res := none, sem := s, woken := [] }

/-- Modelled from the spec: a blocked wait is interrupted, section 4.3: "woken
by an external interruption/signal → fail with `INTR`"; the thread leaves the
waiting list and the counter is left untouched. -/
def interrupted (t : thread) (s : semaphore) : effect :=
  if t ∈ s.list_ then
    { res := some result_t.EINTR, sem := { s with list_ := unlink t s.list_ }, woken := [] }
  else
    { res := none, sem := s, woken := [] }

/-- Modelled from the spec: a blocked wait ends on an internal fault, section
4.3: "woken due to an unrecoverable internal condition (e.g. the semaphore is
being torn down while waited-on) → fail with `NOTRECOVERABLE`"; the thread
leaves the waiting list and the counter is left untouched. -/
def faulted (t : thread) (s : semaphore) : effect :=
  if t ∈ s.list_ then
    { res := some result_t.ENOTRECOVERABLE, sem := { s with list_ := unlink t s.list_ },
      woken := [] }
  else
    { res := none, sem := s, woken := [] }

/-- Modelled from the spec: the waking loop of `reset`, section 4.7: "if the
new `count` is greater than zero and the waiting list is non-empty, wakes
waiters exactly as post would, repeatedly, until either the list empties or
`count` returns to zero, preserving priority order".  Each round removes the
head of the list and hands it one unit, as `post` does.  The result is the
count left, the waiters made ready and the waiters left. -/
def reset_wake : Waiting_threads_list → Int → Int × List thread × Waiting_threads_list
  | [], count => (count, [], [])
  | w :: rest, count =>
    if count > 0 then
      ((reset_wake rest (to_count_t (count - 1))).1,
        w :: (reset_wake rest (to_count_t (count - 1))).2.1,
        (reset_wake rest (to_count_t (count - 1))).2.2)
    else (count, [], w :: rest)

/-- Modelled from the spec: `result_t reset (void)` of `os-semaphore.cpp`,
section 4.7: `PERM` from interrupt context; otherwise "sets `count` to
`initial_count` atomically", runs the waking loop and succeeds. -/
def reset (in_isr : Bool) (s : semaphore) : effect :=
  if in_isr then
    { res := some result_t.EPERM, sem := s, woken := [] }
  else
    { res := some result_t.ok
      sem := { s with count_ := (reset_wake s.list_ s.initial_count_).1
                      list_ := (reset_wake s.list_ s.initial_count_).2.2 }
      woken := (reset_wake s.list_ s.initial_count_).2.1 }

/-- The operations and events that act on one semaphore. -/
inductive operation where
  | post (fault : Bool)
  | wait (c : caller)
  | try_wait (c : caller) (signalled fault : Bool)
  | timed_wait (c : caller) (timeout_valid : Bool)
  | reset (in_isr : Bool)
  | timer_fired (t : thread)
  | interrupted (t : thread)
  | faulted (t : thread)
deriving DecidableEq, Repr

/-- Effect of one operation on the semaphore. -/
def apply (o : operation) (s : semaphore) : effect :=
  match o with
  | operation.post f => post f s
  | operation.wait c => wait c s
  | operation.try_wait c i f => try_wait c i f s
  | operation.timed_wait c v => timed_wait c v s
  | operation.reset i => reset i s
  | operation.timer_fired t => timer_fired t s
  | operation.interrupted t => interrupted t s
  | operation.faulted t => faulted t s

/-- The semaphore after a finite sequence of operations, run in order. -/
def run (ops : List operation) (s : semaphore) : semaphore :=
  ops.foldl (fun st o => (apply o st).sem) s

/-- The waiting list after the threads of `ts` registered, in this order, in
an empty list. -/
def link_all (ts : List thread) : Waiting_threads_list :=
  ts.foldl (fun l t => link t l) []

/-- Bookkeeping for the statements about arrival order: `ts` lists the waiters
of `s` in their order of arrival; the result lists the waiters, in their order
of arrival, after operation `o`.  A caller that is suspended arrives last; a
thread made ready, timed out, interrupted or faulted leaves. -/
def arrivals_after (o : operation) (s : semaphore) (ts : List thread) : List thread :=
  match o with
  | operation.wait c => if (wait c s).res = none then ts ++ [c.self] else ts
  | operation.timed_wait c v => if (timed_wait c v s).res = none then ts ++ [c.self] else ts
  | operation.timer_fired t => if t ∈ s.list_ then ts.erase t else ts
  | operation.interrupted t => if t ∈ s.list_ then ts.erase t else ts
  | operation.faulted t => if t ∈ s.list_ then ts.erase t else ts
  | operation.post f => (post f s).woken.foldl List.erase ts
  | operation.reset i => (reset i s).woken.foldl List.erase ts
  | operation.try_wait _ _ _ => ts

/-- The waiters in their order of arrival after a finite sequence of
operations, starting from the state `s` whose waiters arrived in the order
`ts`. -/
def arrivals (ops : List operation) (s : semaphore) (ts : List thread) : List thread :=
  match ops with
  | [] => ts
  | o :: rest => arrivals rest (apply o s).sem (arrivals_after o s ts)

/-- The counter discipline: both stored bounds are `count_t` values with
`0 <= initial_count_ <= max_count_`, and `0 <= count_ <= max_count_`. -/
def counter_ok (s : semaphore) : Prop :=
  0 ≤ s.initial_count_ ∧ s.initial_count_ ≤ s.max_count_ ∧ s.max_count_ ≤ max_count_value ∧
    0 ≤ s.count_ ∧ s.count_ ≤ s.max_count_

/-- The waiting list is kept most urgent first. -/
def by_priority (l : Waiting_threads_list) : Prop :=
  l.Pairwise (fun a b => b.prio ≤ a.prio)

/-- Section 3 of the specification: "`count == 0` is the only state in which
`waiting_list` may be non-empty". -/
def waiters_only_at_zero (s : semaphore) : Prop :=
  s.list_ ≠ [] → s.count_ = 0

end semaphore

end rtos

end os

/-! ## Theorems -/

namespace os

/-! ### Machine integers -/

theorem to_signed_of_lt (w : Nat) (n : Int) (h0 : 0 ≤ n) (h : n < (2 : Int) ^ (w - 1)) :
    to_signed w n = n := by
  have hpow : (2 : Int) ^ (w - 1) ≤ (2 : Int) ^ w :=
    pow_le_pow_right₀ (by norm_num) (Nat.sub_le w 1)
  have hm : n % (2 : Int) ^ w = n := Int.emod_eq_of_lt h0 (lt_of_lt_of_le h hpow)
  simp only [to_signed, hm, if_pos h]

theorem to_signed_of_ge (w : Nat) (n : Int) (h : (2 : Int) ^ (w - 1) ≤ n)
    (h2 : n < (2 : Int) ^ w) : to_signed w n = n - (2 : Int) ^ w := by
  have h0 : (0 : Int) ≤ n := le_trans (by positivity) h
  have hm : n % (2 : Int) ^ w = n := Int.emod_eq_of_lt h0 h2
  simp only [to_signed, hm, if_neg (not_lt.mpr h)]

/-! ### The trace channel -/

/-- C8, the claim as stated fails: on a target with a 32-bit `std::size_t`
the default `write` called with `nbyte = 4294967295` (`SIZE_MAX`) returns
`-1`, not `nbyte`, and `trace_write` returns the same `-1`. -/
theorem write_size_max_is_negative :
    trace.write 32 [] 4294967295 = -1 ∧ trace.write 32 [] 4294967295 ≠ 4294967295 ∧
      trace_write 32 [] 4294967295 = -1 := by
  decide

/-- C8, amended: for every buffer and every byte count `nbyte` that does not
exceed `SSIZE_MAX = 2 ^ (sz - 1) - 1` the default `write` returns exactly
`nbyte`, which is not negative; for every larger `std::size_t` value the cast
gives the negative number `nbyte - 2 ^ sz`; and the C entry point
`trace_write` returns what `trace::write` returns, for every input. -/
theorem write_returns_nbyte_up_to_ssize_max (sz : Nat) (buf : trace.buffer) (nbyte : Int)
    (h0 : 0 ≤ nbyte) (hmax : nbyte < (2 : Int) ^ sz) :
    (nbyte < (2 : Int) ^ (sz - 1) →
        trace.write sz buf nbyte = nbyte ∧ 0 ≤ trace.write sz buf nbyte) ∧
      ((2 : Int) ^ (sz - 1) ≤ nbyte →
        trace.write sz buf nbyte = nbyte - (2 : Int) ^ sz ∧ trace.write sz buf nbyte < 0) ∧
      trace_write sz buf nbyte = trace.write sz buf nbyte := by
  refine ⟨fun h => ?_, fun h => ?_, rfl⟩
  · have e : trace.write sz buf nbyte = nbyte := to_signed_of_lt sz nbyte h0 h
    exact ⟨e, by rw [e]; exact h0⟩
  · have e : trace.write sz buf nbyte = nbyte - (2 : Int) ^ sz :=
      to_signed_of_ge sz nbyte h hmax
    exact ⟨e, by rw [e]; linarith⟩

theorem write_returns_nbyte_up_to_ssize_max_witness :
    (((5 : Int) < (2 : Int) ^ (32 - 1) →
        trace.write 32 [104, 101, 108, 108, 111] 5 = 5 ∧
          0 ≤ trace.write 32 [104, 101, 108, 108, 111] 5) ∧
      ((2 : Int) ^ (32 - 1) ≤ (5 : Int) →
        trace.write 32 [104, 101, 108, 108, 111] 5 = 5 - (2 : Int) ^ 32 ∧
          trace.write 32 [104, 101, 108, 108, 111] 5 < 0) ∧
      trace_write 32 [104, 101, 108, 108, 111] 5 = trace.write 32 [104, 101, 108, 108, 111] 5) :=
  write_returns_nbyte_up_to_ssize_max 32 [104, 101, 108, 108, 111] 5 (by decide) (by decide)

/-- C9, the code at the failing input: `puts ("")` over the default channel.
`write ("", 0)` returns `0`, the test `ret > 0` fails, so the line terminator
is never written (the only request is the empty one) and `EOF` is returned. -/
theorem puts_empty_string_returns_EOF :
    trace.puts (trace.write 32) [] = { ret := EOF, calls := [([], 0)] } ∧
      (∀ c ∈ (trace.puts (trace.write 32) []).calls, 0 ≤ trace.write 32 c.1 c.2) ∧
      ([10], (1 : Int)) ∉ (trace.puts (trace.write 32) []).calls := by
  decide

/-- C10, the code at the failing input: a format whose expansion has 250
characters.  `vsnprintf` stores 199 of them in the buffer of 200 bytes and
returns 250; `vprintf` passes that 250 to `write` as the byte count. -/
theorem vprintf_passes_untruncated_length :
    trace.vprintf 32 (trace.write 32) (some (List.replicate 250 120)) =
        { ret := 250, calls := [(List.replicate 199 120, 250)] } ∧
      (List.replicate 199 120).length < trace.OS_INTEGER_TRACE_PRINTF_TMP_ARRAY_SIZE ∧
      (trace.OS_INTEGER_TRACE_PRINTF_TMP_ARRAY_SIZE : Int) < 250 := by
  refine ⟨?_, ?_, by decide⟩
  · have hlen : ((List.replicate 250 (120 : Nat)).length : Int) = 250 := by
      rw [List.length_replicate]; rfl
    have htake : (List.replicate 250 (120 : Nat)).take (200 - 1) = List.replicate 199 120 := by
      rw [List.take_replicate]; rfl
    have h1 : trace.vsnprintf trace.OS_INTEGER_TRACE_PRINTF_TMP_ARRAY_SIZE
        (some (List.replicate 250 120)) = (List.replicate 199 120, 250) := by
      unfold trace.vsnprintf trace.OS_INTEGER_TRACE_PRINTF_TMP_ARRAY_SIZE
      simp only [hlen, htake]
      rfl
    unfold trace.vprintf
    rw [h1]
    rfl
  · rw [List.length_replicate]; decide

/-- Over the default channel `puts` works for every non-empty string shorter
than `2 ^ 31` bytes: it writes the string, then the line terminator, and
returns `1`, the count of the second write. -/
theorem puts_nonempty_default_sink (s : trace.buffer) (hne : s ≠ [])
    (hlen : (s.length : Int) < (2 : Int) ^ 31) :
    trace.puts (trace.write 32) s = { ret := 1, calls := [(s, s.length), ([10], 1)] } := by
  have hpos : (0 : Int) < s.length := by
    have : 0 < s.length := List.length_pos.mpr hne
    exact_mod_cast this
  have e1 : trace.write 32 s (trace.strlen s) = s.length :=
    to_signed_of_lt 32 _ (le_of_lt hpos) hlen
  have e2 : to_int (s.length : Int) = s.length := to_signed_of_lt 32 _ (le_of_lt hpos) hlen
  have e3 : to_int (trace.write 32 [10] 1) = 1 := by decide
  unfold trace.puts
  simp only [e1, e2, e3, gt_iff_lt, hpos, if_true]
  rfl

/-- When `vsnprintf` reports an error or an empty expansion, `vprintf` returns
that value and issues no `write`. -/
theorem vprintf_nothing_to_write (sz : Nat) (w : trace.sink) :
    trace.vprintf sz w none = { ret := -1, calls := [] } ∧
      trace.vprintf sz w (some []) = { ret := 0, calls := [] } := by
  constructor <;> rfl

/-- For every expansion of `n` characters, `0 < n < 2 ^ 31`, `vprintf` issues
one `write` whose buffer holds the first 199 characters and whose byte count
is `n` itself, however large. -/
theorem vprintf_byte_count_is_length (w : trace.sink) (out : trace.buffer) (hne : out ≠ [])
    (hlen : (out.length : Int) < (2 : Int) ^ 31) :
    (trace.vprintf 32 w (some out)).calls = [(out.take 199, (out.length : Int))] := by
  have hpos : (0 : Int) < out.length := by
    have : 0 < out.length := List.length_pos.mpr hne
    exact_mod_cast this
  have h1 : trace.vsnprintf trace.OS_INTEGER_TRACE_PRINTF_TMP_ARRAY_SIZE (some out) =
      (out.take 199, (out.length : Int)) := by
    unfold trace.vsnprintf
    simp only [int_bits]
    rw [if_pos hlen]
    rfl
  have h2 : to_unsigned 32 (out.length : Int) = out.length := by
    unfold to_unsigned
    exact Int.emod_eq_of_lt (le_of_lt hpos) (lt_trans hlen (by norm_num))
  unfold trace.vprintf
  simp only [h1, gt_iff_lt, hpos, if_true, h2]

namespace rtos

namespace semaphore

/-! ### Attributes and accessors -/

/-- C5: for every name (the null pointer included) the attributes built by
`attributes (name)` have initial count `0` and max count `32767`, which is
`max_count_value = 0x7FFF`. -/
theorem attributes_defaults (name : Option String) :
    (attributes.new name).sm_initial_count = 0 ∧
      (attributes.new name).sm_max_count = 32767 ∧
      (attributes.new name).sm_max_count = max_count_value ∧
      max_count_value = 0x7FFF := by
  refine ⟨rfl, rfl, rfl, rfl⟩

/-- C6: for every name the attributes built by `binary_attributes (name)` have
max count exactly `1` and are otherwise the default counting attributes built
with the same name: same name, initial count `0`, hence
`initial_count <= max_count`. -/
theorem binary_attributes_max_count_one (name : Option String) :
    (binary_attributes.new name).sm_max_count = 1 ∧
      (binary_attributes.new name).toattributes =
        { attributes.new name with sm_max_count := 1 } ∧
      (binary_attributes.new name).name = (attributes.new name).name ∧
      (binary_attributes.new name).sm_initial_count = 0 ∧
      (binary_attributes.new name).sm_initial_count ≤
        (binary_attributes.new name).sm_max_count := by
  refine ⟨rfl, rfl, rfl, rfl, ?_⟩
  show (0 : Int) ≤ 1
  decide

/-- C7: `initial_value ()` returns the stored `initial_count_` and
`max_value ()` returns the stored `max_count_`; neither changes the object
(every member, `count_` included, is as before), so a second call returns the
same value as the first. -/
theorem accessors_pure (s : semaphore) :
    (initial_value s).1 = s.initial_count_ ∧ (initial_value s).2 = s ∧
      (max_value s).1 = s.max_count_ ∧ (max_value s).2 = s ∧
      (initial_value s).2.count_ = s.count_ ∧ (max_value s).2.count_ = s.count_ ∧
      (initial_value (initial_value s).2).1 = (initial_value s).1 ∧
      (max_value (max_value s).2).1 = (max_value s).1 ∧
      (max_value (initial_value s).2).1 = (max_value s).1 ∧
      (initial_value (max_value s).2).1 = (initial_value s).1 := by
  refine ⟨rfl, rfl, rfl, rfl, rfl, rfl, rfl, rfl, rfl, rfl⟩

/-! ### The counter -/

theorem to_count_t_of_is_count_t (n : Int) (h : is_count_t n) : to_count_t n = n := by
  obtain ⟨h1, h2⟩ := h
  unfold to_count_t to_signed count_bits
  have e : (2 : Int) ^ 16 = 65536 := by norm_num
  have e2 : (2 : Int) ^ (16 - 1) = 32768 := by norm_num
  simp only [e, e2]
  by_cases hn : 0 ≤ n
  · have hm : n % 65536 = n := Int.emod_eq_of_lt hn (by omega)
    rw [hm, if_pos (by omega)]
  · have hm : n % 65536 = n + 65536 := by omega
    rw [hm, if_neg (by omega)]
    omega

/-- C1, the claim as stated fails: a semaphore with `count_ = 0` below
`max_count_ = 3` and one waiter.  `post ()` returns `ok`, removes the waiter
and hands it the unit; the count stays `0` and does not become `0 + 1`. -/
theorem post_with_waiter_leaves_count :
    (⟨"s", [⟨1, 5⟩], none, 0, 0, 3⟩ : semaphore).count_ <
        (⟨"s", [⟨1, 5⟩], none, 0, 0, 3⟩ : semaphore).max_count_ ∧
      (post false ⟨"s", [⟨1, 5⟩], none, 0, 0, 3⟩).res = some result_t.ok ∧
      (post false ⟨"s", [⟨1, 5⟩], none, 0, 0, 3⟩).woken = [⟨1, 5⟩] ∧
      (post false ⟨"s", [⟨1, 5⟩], none, 0, 0, 3⟩).sem.count_ = 0 ∧
      (post false ⟨"s", [⟨1, 5⟩], none, 0, 0, 3⟩).sem.count_ ≠
        (⟨"s", [⟨1, 5⟩], none, 0, 0, 3⟩ : semaphore).count_ + 1 := by
  decide

/-- C1, amended: for every semaphore state (the members being `count_t`
values), `post ()` on a semaphore whose count equals `max_count_` returns
`EAGAIN` and leaves the count (and the rest of the object) unchanged.  On a
semaphore whose count is below `max_count_` it returns `ENOTRECOVERABLE` and
leaves the object unchanged when the internal transition cannot complete;
otherwise it returns `ok`, and the count becomes `count + 1` when the waiting
list is empty, while with a non-empty waiting list the unit is handed to the
waiter it removes and the count is left as it was. -/
theorem post_at_max_is_EAGAIN_else_increments_or_hands_off (fault : Bool) (s : semaphore)
    (hc : is_count_t s.count_) (hm : is_count_t s.max_count_) :
    (s.count_ = s.max_count_ →
        (post fault s).res = some result_t.EAGAIN ∧ (post fault s).sem.count_ = s.count_ ∧
          (post fault s).sem = s) ∧
      (s.count_ < s.max_count_ → fault = true →
        (post fault s).res = some result_t.ENOTRECOVERABLE ∧ (post fault s).sem = s) ∧
      (s.count_ < s.max_count_ → fault = false →
        (post fault s).res = some result_t.ok ∧
          (s.list_ = [] →
            (post fault s).sem.count_ = s.count_ + 1 ∧ (post fault s).woken = []) ∧
          (∀ w rest, s.list_ = w :: rest →
            (post fault s).sem.count_ = s.count_ ∧ (post fault s).woken = [w] ∧
              (post fault s).sem.list_ = rest)) := by
  have hinc : s.count_ < s.max_count_ → to_count_t (s.count_ + 1) = s.count_ + 1 := by
    intro hlt
    apply to_count_t_of_is_count_t
    obtain ⟨h1, _⟩ := hc
    obtain ⟨_, h4⟩ := hm
    exact ⟨by omega, by omega⟩
  refine ⟨?_, ?_, ?_⟩
  · intro heq
    unfold post
    rw [if_pos heq]
    exact ⟨rfl, rfl, rfl⟩
  · intro hlt hf
    have hne : s.count_ ≠ s.max_count_ := ne_of_lt hlt
    unfold post
    rw [if_neg hne, if_pos hf]
    exact ⟨rfl, rfl⟩
  · intro hlt hf
    have hne : s.count_ ≠ s.max_count_ := ne_of_lt hlt
    have hf' : ¬ (fault = true) := by rw [hf]; decide
    unfold post
    rw [if_neg hne, if_neg hf']
    cases hl : s.list_ with
    | nil =>
      refine ⟨rfl, fun _ => ⟨hinc hlt, rfl⟩, ?_⟩
      intro w rest hw
      exact absurd hw (by simp)
    | cons a l =>
      refine ⟨rfl, fun hnil => absurd hnil (by simp), ?_⟩
      intro w rest hw
      obtain ⟨h1, h2⟩ := List.cons.inj hw
      subst h1
      subst h2
      exact ⟨rfl, rfl, rfl⟩

theorem post_at_max_is_EAGAIN_else_increments_or_hands_off_witness :
    is_count_t (0 : Int) ∧ is_count_t (3 : Int) ∧
      (post false ⟨"s", [⟨1, 5⟩, ⟨2, 4⟩], none, 0, 0, 3⟩).res = some result_t.ok ∧
      (post false ⟨"s", [⟨1, 5⟩, ⟨2, 4⟩], none, 0, 0, 3⟩).sem.count_ = 0 ∧
      (post false ⟨"s", [⟨1, 5⟩, ⟨2, 4⟩], none, 0, 0, 3⟩).woken = [⟨1, 5⟩] ∧
      (post false ⟨"s", [⟨1, 5⟩, ⟨2, 4⟩], none, 0, 0, 3⟩).sem.list_ = [⟨2, 4⟩] :=
  ⟨by decide, by decide,
    ((post_at_max_is_EAGAIN_else_increments_or_hands_off false
      ⟨"s", [⟨1, 5⟩, ⟨2, 4⟩], none, 0, 0, 3⟩ (by decide) (by decide)).2.2
        (by decide) rfl).1,
    (((post_at_max_is_EAGAIN_else_increments_or_hands_off false
      ⟨"s", [⟨1, 5⟩, ⟨2, 4⟩], none, 0, 0, 3⟩ (by decide) (by decide)).2.2
        (by decide) rfl).2.2 ⟨1, 5⟩ [⟨2, 4⟩] rfl).1,
    (((post_at_max_is_EAGAIN_else_increments_or_hands_off false
      ⟨"s", [⟨1, 5⟩, ⟨2, 4⟩], none, 0, 0, 3⟩ (by decide) (by decide)).2.2
        (by decide) rfl).2.2 ⟨1, 5⟩ [⟨2, 4⟩] rfl).2.1,
    (((post_at_max_is_EAGAIN_else_increments_or_hands_off false
      ⟨"s", [⟨1, 5⟩, ⟨2, 4⟩], none, 0, 0, 3⟩ (by decide) (by decide)).2.2
        (by decide) rfl).2.2 ⟨1, 5⟩ [⟨2, 4⟩] rfl).2.2⟩

/-- C3, the claim as stated fails: a semaphore with `count_ = 0` and a caller
in thread context for whom the deadlock check fires.  `try_wait ()` returns
`EDEADLK`, not `EWOULDBLOCK`. -/
theorem try_wait_deadlock_is_not_EWOULDBLOCK :
    (⟨"s", [], none, 0, 0, 3⟩ : semaphore).count_ = 0 ∧
      (try_wait ⟨⟨1, 5⟩, false, true⟩ false false ⟨"s", [], none, 0, 0, 3⟩).res =
        some result_t.EDEADLK ∧
      (try_wait ⟨⟨1, 5⟩, false, true⟩ false false ⟨"s", [], none, 0, 0, 3⟩).res ≠
        some result_t.EWOULDBLOCK := by
  decide

/-- C3, amended: for every semaphore state and every caller to whom none of
the error results applies (thread context, deadlock check silent, no
interruption, no internal fault), `try_wait ()` returns `ok` exactly when
`count > 0`, and then the count is one less and the waiting list is as it was;
when `count == 0` it returns `EWOULDBLOCK` and leaves the object, count and
waiting list included, unchanged.  For every caller whatsoever it never
suspends the caller, readies no thread, leaves the waiting list as it was and
leaves the whole object unchanged unless it returns `ok`.  The scenario of the
binary semaphore with initial count `1`, for such a caller: `try_wait`
succeeds and the value is `0`, a second `try_wait` gives `EWOULDBLOCK`, then
`post` succeeds and the value is `1`. -/
theorem try_wait_takes_unit_or_EWOULDBLOCK_absent_errors (c : caller)
    (signalled fault : Bool) (s : semaphore) (hc : is_count_t s.count_) :
    (c.in_isr = false → c.deadlock = false → signalled = false → fault = false →
        ((try_wait c signalled fault s).res = some result_t.ok ↔ 0 < s.count_) ∧
          (0 < s.count_ →
            (try_wait c signalled fault s).res = some result_t.ok ∧
              (try_wait c signalled fault s).sem.count_ = s.count_ - 1 ∧
              (try_wait c signalled fault s).sem.list_ = s.list_) ∧
          (s.count_ = 0 →
            (try_wait c signalled fault s).res = some result_t.EWOULDBLOCK ∧
              (try_wait c signalled fault s).sem = s ∧
              (try_wait c signalled fault s).sem.count_ = s.count_ ∧
              (try_wait c signalled fault s).sem.list_ = s.list_)) ∧
      (try_wait c signalled fault s).res ≠ none ∧
      (try_wait c signalled fault s).woken = [] ∧
      (try_wait c signalled fault s).sem.list_ = s.list_ ∧
      ((try_wait c signalled fault s).res ≠ some result_t.ok →
        (try_wait c signalled fault s).sem = s) ∧
      (∃ s0 s1 s2 : semaphore,
        new { (binary_attributes.new (some "b")).toattributes with sm_initial_count := 1 } =
            some s0 ∧
          s0.max_count_ = 1 ∧ s0.initial_count_ = 1 ∧
          try_wait ⟨⟨1, 1⟩, false, false⟩ false false s0 =
            { res := some result_t.ok, sem := s1, woken := [] } ∧
          (value s1).1 = 0 ∧
          try_wait ⟨⟨1, 1⟩, false, false⟩ false false s1 =
            { res := some result_t.EWOULDBLOCK, sem := s1, woken := [] } ∧
          post false s1 = { res := some result_t.ok, sem := s2, woken := [] } ∧
          (value s2).1 = 1) := by
  have hdec : 0 < s.count_ → to_count_t (s.count_ - 1) = s.count_ - 1 := by
    intro hpos
    apply to_count_t_of_is_count_t
    obtain ⟨_, h2⟩ := hc
    exact ⟨by omega, by omega⟩
  refine ⟨?_, ?_, ?_, ?_, ?_, ?_⟩
  · intro h1 h2 h3 h4
    refine ⟨?_, ?_, ?_⟩
    · by_cases hpos : 0 < s.count_
      · simp [try_wait, _try_wait, hpos, h1]
      · simp [try_wait, _try_wait, hpos, h1, h2, h3, h4]
    · intro hpos
      simp [try_wait, _try_wait, hpos, h1, hdec hpos]
    · intro hz
      simp [try_wait, _try_wait, hz, h1, h2, h3, h4]
  · unfold try_wait
    split_ifs <;> simp
  · unfold try_wait
    split_ifs <;> rfl
  · unfold try_wait _try_wait
    split_ifs <;> rfl
  · unfold try_wait
    split_ifs <;> simp
  · exact ⟨⟨"b", [], none, 1, 1, 1⟩, ⟨"b", [], none, 1, 0, 1⟩, ⟨"b", [], none, 1, 1, 1⟩,
      by decide, by decide, by decide, by decide, by decide, by decide, by decide, by decide⟩

theorem try_wait_takes_unit_or_EWOULDBLOCK_absent_errors_witness :
    is_count_t (0 : Int) ∧
      (try_wait ⟨⟨9, 2⟩, false, false⟩ false false ⟨"s", [⟨7, 1⟩], none, 0, 0, 3⟩).res =
        some result_t.EWOULDBLOCK ∧
      (try_wait ⟨⟨9, 2⟩, false, false⟩ false false ⟨"s", [⟨7, 1⟩], none, 0, 0, 3⟩).sem =
        ⟨"s", [⟨7, 1⟩], none, 0, 0, 3⟩ :=
  ⟨by decide,
    (((try_wait_takes_unit_or_EWOULDBLOCK_absent_errors ⟨⟨9, 2⟩, false, false⟩ false false
      ⟨"s", [⟨7, 1⟩], none, 0, 0, 3⟩ (by decide)).1 rfl rfl rfl rfl).2.2 rfl).1,
    (((try_wait_takes_unit_or_EWOULDBLOCK_absent_errors ⟨⟨9, 2⟩, false, false⟩ false false
      ⟨"s", [⟨7, 1⟩], none, 0, 0, 3⟩ (by decide)).1 rfl rfl rfl rfl).2.2 rfl).2.1⟩

theorem _try_wait_keeps (s : semaphore) (h : counter_ok s) :
    counter_ok (_try_wait s).2 ∧ (_try_wait s).2.initial_count_ = s.initial_count_ ∧
      (_try_wait s).2.max_count_ = s.max_count_ := by
  obtain ⟨h1, h2, h3, h4, h5⟩ := h
  have h3' : s.max_count_ ≤ 32767 := h3
  by_cases hpos : 0 < s.count_
  · have e : to_count_t (s.count_ - 1) = s.count_ - 1 :=
      to_count_t_of_is_count_t _ ⟨by omega, by omega⟩
    unfold _try_wait
    rw [if_pos hpos, e]
    exact ⟨⟨h1, h2, h3, by show 0 ≤ s.count_ - 1; omega,
      by show s.count_ - 1 ≤ s.max_count_; omega⟩, rfl, rfl⟩
  · unfold _try_wait
    rw [if_neg hpos]
    exact ⟨⟨h1, h2, h3, h4, h5⟩, rfl, rfl⟩

theorem post_keeps (fault : Bool) (s : semaphore) (h : counter_ok s) :
    counter_ok (post fault s).sem ∧ (post fault s).sem.initial_count_ = s.initial_count_ ∧
      (post fault s).sem.max_count_ = s.max_count_ := by
  obtain ⟨h1, h2, h3, h4, h5⟩ := h
  have h3' : s.max_count_ ≤ 32767 := h3
  unfold post
  split_ifs with heq hf
  · exact ⟨⟨h1, h2, h3, h4, h5⟩, rfl, rfl⟩
  · exact ⟨⟨h1, h2, h3, h4, h5⟩, rfl, rfl⟩
  · have e : to_count_t (s.count_ + 1) = s.count_ + 1 :=
      to_count_t_of_is_count_t _ ⟨by omega, by omega⟩
    rw [e]
    cases s.list_ with
    | nil => exact ⟨⟨h1, h2, h3, by show 0 ≤ s.count_ + 1; omega,
        by show s.count_ + 1 ≤ s.max_count_; omega⟩, rfl, rfl⟩
    | cons w rest => exact ⟨⟨h1, h2, h3, h4, h5⟩, rfl, rfl⟩

theorem reset_wake_nil (count : Int) : reset_wake [] count = (count, [], []) := rfl

theorem reset_wake_cons (w : thread) (rest : Waiting_threads_list) (count : Int) :
    reset_wake (w :: rest) count =
      if count > 0 then
        ((reset_wake rest (to_count_t (count - 1))).1,
          w :: (reset_wake rest (to_count_t (count - 1))).2.1,
          (reset_wake rest (to_count_t (count - 1))).2.2)
      else (count, [], w :: rest) := rfl

/-- The waking loop of `reset` leaves a count between `0` and the count it
started from. -/
theorem reset_wake_count (l : Waiting_threads_list) (count : Int) (h0 : 0 ≤ count)
    (h1 : count ≤ 32767) :
    0 ≤ (reset_wake l count).1 ∧ (reset_wake l count).1 ≤ count := by
  induction l generalizing count with
  | nil => exact ⟨h0, le_refl _⟩
  | cons w rest ih =>
    rw [reset_wake_cons]
    by_cases hpos : count > 0
    · have e : to_count_t (count - 1) = count - 1 :=
        to_count_t_of_is_count_t _ ⟨by omega, by omega⟩
      rw [if_pos hpos, e]
      obtain ⟨a, b⟩ := ih (count - 1) (by omega) (by omega)
      exact ⟨a, by show (reset_wake rest (count - 1)).1 ≤ count; omega⟩
    · rw [if_neg hpos]
      exact ⟨h0, le_refl _⟩

theorem reset_keeps (i : Bool) (s : semaphore) (h : counter_ok s) :
    counter_ok (reset i s).sem ∧ (reset i s).sem.initial_count_ = s.initial_count_ ∧
      (reset i s).sem.max_count_ = s.max_count_ := by
  obtain ⟨h1, h2, h3, h4, h5⟩ := h
  have h3' : s.max_count_ ≤ 32767 := h3
  unfold reset
  split_ifs
  · exact ⟨⟨h1, h2, h3, h4, h5⟩, rfl, rfl⟩
  · obtain ⟨a, b⟩ := reset_wake_count s.list_ s.initial_count_ h1 (by omega)
    exact ⟨⟨h1, h2, h3, a, le_trans b h2⟩, rfl, rfl⟩

theorem apply_keeps (o : operation) (s : semaphore) (h : counter_ok s) :
    counter_ok (apply o s).sem ∧ (apply o s).sem.initial_count_ = s.initial_count_ ∧
      (apply o s).sem.max_count_ = s.max_count_ := by
  have hs : counter_ok s ∧ s.initial_count_ = s.initial_count_ ∧ s.max_count_ = s.max_count_ :=
    ⟨h, rfl, rfl⟩
  cases o with
  | post f => exact post_keeps f s h
  | wait c =>
    simp only [apply, wait]
    split_ifs
    · exact hs
    · exact _try_wait_keeps s h
    · exact hs
    · exact hs
  | try_wait c i f =>
    simp only [apply, try_wait]
    split_ifs
    · exact hs
    · exact _try_wait_keeps s h
    · exact hs
    · exact hs
    · exact hs
    · exact hs
  | timed_wait c v =>
    simp only [apply, timed_wait]
    split_ifs
    · exact hs
    · exact hs
    · exact _try_wait_keeps s h
    · exact hs
    · exact hs
  | reset i => exact reset_keeps i s h
  | timer_fired t =>
    simp only [apply, timer_fired]
    split_ifs
    · exact hs
    · exact hs
  | interrupted t =>
    simp only [apply, interrupted]
    split_ifs
    · exact hs
    · exact hs
  | faulted t =>
    simp only [apply, faulted]
    split_ifs
    · exact hs
    · exact hs

theorem run_keeps (ops : List operation) (s : semaphore) (h : counter_ok s) :
    counter_ok (run ops s) ∧ (run ops s).initial_count_ = s.initial_count_ ∧
      (run ops s).max_count_ = s.max_count_ := by
  induction ops generalizing s with
  | nil => exact ⟨h, rfl, rfl⟩
  | cons o rest ih =>
    obtain ⟨k1, k2, k3⟩ := apply_keeps o s h
    obtain ⟨r1, r2, r3⟩ := ih (apply o s).sem k1
    exact ⟨r1, r2.trans k2, r3.trans k3⟩

/-- C2: for every semaphore constructed from attributes with initial count `k`
and max count `m`, `0 <= k <= m` (and `m` a `count_t`, at most `0x7FFF`), the
construction succeeds, and after every finite sequence of `post`, `wait`,
`try_wait`, `timed_wait` and `reset` calls (and of timer expiries,
interruptions and faults of blocked waits) the counter satisfies
`0 <= count_ <= max_count_ = m`, so `value ()` is in `[0, m]`. -/
theorem count_stays_within_bounds (attr : attributes)
    (hk : 0 ≤ attr.sm_initial_count) (hkm : attr.sm_initial_count ≤ attr.sm_max_count)
    (hm : attr.sm_max_count ≤ max_count_value) :
    ∃ s0, new attr = some s0 ∧ s0.count_ = attr.sm_initial_count ∧
      ∀ ops : List operation,
        0 ≤ (run ops s0).count_ ∧ (run ops s0).count_ ≤ (run ops s0).max_count_ ∧
          (run ops s0).max_count_ = attr.sm_max_count ∧
          0 ≤ (value (run ops s0)).1 ∧ (value (run ops s0)).1 ≤ attr.sm_max_count := by
  refine ⟨_, if_pos hkm, rfl, ?_⟩
  intro ops
  have h0 : counter_ok
      { name_ := attr.name, list_ := [], clock_ := none,
        initial_count_ := attr.sm_initial_count, count_ := attr.sm_initial_count,
        max_count_ := attr.sm_max_count } := ⟨hk, hkm, hm, hk, hkm⟩
  obtain ⟨⟨_, _, _, c1, c2⟩, _, r3⟩ := run_keeps ops _ h0
  have r3' : (run ops _).max_count_ = attr.sm_max_count := r3
  exact ⟨c1, c2, r3', c1, le_of_le_of_eq c2 r3'⟩

theorem count_stays_within_bounds_witness :
    (0 : Int) ≤ 0 ∧ (0 : Int) ≤ 3 ∧ (3 : Int) ≤ max_count_value ∧
      ∃ s0, new ⟨⟨"c"⟩, 0, 3⟩ = some s0 ∧ s0.count_ = 0 ∧
        ∀ ops : List operation,
          0 ≤ (run ops s0).count_ ∧ (run ops s0).count_ ≤ (run ops s0).max_count_ ∧
            (run ops s0).max_count_ = 3 ∧
            0 ≤ (value (run ops s0)).1 ∧ (value (run ops s0)).1 ≤ 3 :=
  ⟨by decide, by decide, by decide,
    count_stays_within_bounds ⟨⟨"c"⟩, 0, 3⟩ (by decide) (by decide) (by decide)⟩

/-! ### The waiting list -/

theorem link_all_append_singleton (ts : List thread) (t : thread) :
    link_all (ts ++ [t]) = link t (link_all ts) := by
  simp [link_all, List.foldl_append]

/-- The head of the list built by successive registrations: it is the first
arrival among the threads of highest priority, and the tail is the list the
other threads would have built by themselves. -/
theorem link_all_head (ts : List thread) (hne : ts ≠ []) :
    ∃ w before after, ts = before ++ w :: after ∧ (∀ v ∈ before, v.prio < w.prio) ∧
      (∀ v ∈ after, v.prio ≤ w.prio) ∧ link_all ts = w :: link_all (before ++ after) := by
  induction ts using List.reverseRecOn with
  | nil => exact absurd rfl hne
  | append_singleton ts t ih =>
    by_cases hts : ts = []
    · subst hts
      exact ⟨t, [], [], rfl, by simp, by simp, rfl⟩
    · obtain ⟨w, before, after, hsplit, hb, ha, hhead⟩ := ih hts
      by_cases hlt : w.prio < t.prio
      · refine ⟨t, ts, [], rfl, ?_, by simp, ?_⟩
        · intro v hv
          rw [hsplit] at hv
          rcases List.mem_append.mp hv with h | h
          · exact lt_trans (hb v h) hlt
          · rcases List.mem_cons.mp h with h | h
            · rw [h]; exact hlt
            · exact lt_of_le_of_lt (ha v h) hlt
        · rw [link_all_append_singleton, hhead, List.append_nil]
          show (if w.prio < t.prio then t :: w :: link_all (before ++ after)
            else w :: link t (link_all (before ++ after))) = _
          rw [if_pos hlt, ← hhead]
      · refine ⟨w, before, after ++ [t], ?_, hb, ?_, ?_⟩
        · rw [hsplit]; simp
        · intro v hv
          rcases List.mem_append.mp hv with h | h
          · exact ha v h
          · rw [List.mem_singleton.mp h]; exact not_lt.mp hlt
        · rw [link_all_append_singleton, hhead]
          show (if w.prio < t.prio then t :: w :: link_all (before ++ after)
            else w :: link t (link_all (before ++ after))) = _
          rw [if_neg hlt, ← List.append_assoc, link_all_append_singleton]

/-- C4: for every non-empty waiting list, built by the registration of the
threads `ts` in their order of arrival, a successful `post ()` removes and
readies exactly one waiter `w`: the head of the list.  No waiter has a higher
priority than `w`, every thread that arrived before `w` has a strictly lower
priority (so `w` is the earliest arrival of its priority), and the other
waiters stay in the list in their order: the list left is the tail of the
former list, which is the list the other threads build by themselves. -/
theorem post_wakes_highest_priority_earliest_waiter (ts : List thread) (fault : Bool)
    (s : semaphore) (hne : ts ≠ []) (hl : s.list_ = link_all ts)
    (hok : (post fault s).res = some result_t.ok) :
    ∃ w before after, ts = before ++ w :: after ∧
      (∀ v ∈ ts, v.prio ≤ w.prio) ∧ (∀ v ∈ before, v.prio < w.prio) ∧
      (post fault s).woken = [w] ∧ s.list_ = w :: (post fault s).sem.list_ ∧
      (post fault s).sem.list_ = link_all (before ++ after) := by
  obtain ⟨w, before, after, hsplit, hb, ha, hhead⟩ := link_all_head ts hne
  have hlist : s.list_ = w :: link_all (before ++ after) := hl.trans hhead
  have hne_max : s.count_ ≠ s.max_count_ := by
    intro heq
    have hres : (post fault s).res = some result_t.EAGAIN := by
      unfold post
      rw [if_pos heq]
    rw [hres] at hok
    exact absurd hok (by decide)
  have hnf : ¬ (fault = true) := by
    intro hf
    have hres : (post fault s).res = some result_t.ENOTRECOVERABLE := by
      unfold post
      rw [if_neg hne_max, if_pos hf]
    rw [hres] at hok
    exact absurd hok (by decide)
  have hpost : (post fault s).woken = [w] ∧
      (post fault s).sem.list_ = link_all (before ++ after) := by
    unfold post
    rw [if_neg hne_max, if_neg hnf, hlist]
    exact ⟨rfl, rfl⟩
  refine ⟨w, before, after, hsplit, ?_, hb, hpost.1, ?_, hpost.2⟩
  · intro v hv
    rw [hsplit] at hv
    rcases List.mem_append.mp hv with h | h
    · exact le_of_lt (hb v h)
    · rcases List.mem_cons.mp h with h | h
      · rw [h]
      · exact ha v h
  · rw [hpost.2]
    exact hlist

theorem post_wakes_highest_priority_earliest_waiter_witness :
    ([⟨1, 2⟩, ⟨2, 5⟩, ⟨3, 5⟩, ⟨4, 1⟩] : List thread) ≠ [] ∧
      (⟨"s", [⟨2, 5⟩, ⟨3, 5⟩, ⟨1, 2⟩, ⟨4, 1⟩], none, 0, 0, 3⟩ : semaphore).list_ =
        link_all [⟨1, 2⟩, ⟨2, 5⟩, ⟨3, 5⟩, ⟨4, 1⟩] ∧
      (post false ⟨"s", [⟨2, 5⟩, ⟨3, 5⟩, ⟨1, 2⟩, ⟨4, 1⟩], none, 0, 0, 3⟩).res = some result_t.ok ∧
      ∃ w before after, ([⟨1, 2⟩, ⟨2, 5⟩, ⟨3, 5⟩, ⟨4, 1⟩] : List thread) = before ++ w :: after ∧
        (∀ v ∈ ([⟨1, 2⟩, ⟨2, 5⟩, ⟨3, 5⟩, ⟨4, 1⟩] : List thread), v.prio ≤ w.prio) ∧
        (∀ v ∈ before, v.prio < w.prio) ∧
        (post false ⟨"s", [⟨2, 5⟩, ⟨3, 5⟩, ⟨1, 2⟩, ⟨4, 1⟩], none, 0, 0, 3⟩).woken = [w] ∧
        (⟨"s", [⟨2, 5⟩, ⟨3, 5⟩, ⟨1, 2⟩, ⟨4, 1⟩], none, 0, 0, 3⟩ : semaphore).list_ =
          w :: (post false ⟨"s", [⟨2, 5⟩, ⟨3, 5⟩, ⟨1, 2⟩, ⟨4, 1⟩], none, 0, 0, 3⟩).sem.list_ ∧
        (post false ⟨"s", [⟨2, 5⟩, ⟨3, 5⟩, ⟨1, 2⟩, ⟨4, 1⟩], none, 0, 0, 3⟩).sem.list_ =
          link_all (before ++ after) :=
  ⟨by decide, by decide, by decide,
    post_wakes_highest_priority_earliest_waiter [⟨1, 2⟩, ⟨2, 5⟩, ⟨3, 5⟩, ⟨4, 1⟩] false
      ⟨"s", [⟨2, 5⟩, ⟨3, 5⟩, ⟨1, 2⟩, ⟨4, 1⟩], none, 0, 0, 3⟩ (by decide) (by decide) (by decide)⟩

/-! ### Every waiting list the operations produce is a registration list -/

theorem mem_link (x v : thread) (l : Waiting_threads_list) :
    v ∈ link x l ↔ v = x ∨ v ∈ l := by
  induction l with
  | nil => simp [link]
  | cons a rest ih =>
    unfold link
    split_ifs
    · simp
    · simp only [List.mem_cons, ih]
      tauto

theorem by_priority_link (x : thread) (l : Waiting_threads_list) (h : by_priority l) :
    by_priority (link x l) := by
  induction l with
  | nil => simp [link, by_priority]
  | cons a rest ih =>
    obtain ⟨ha, hrest⟩ := List.pairwise_cons.mp h
    unfold link
    split_ifs with hlt
    · refine List.pairwise_cons.mpr ⟨?_, h⟩
      intro b hb
      rcases List.mem_cons.mp hb with hb | hb
      · rw [hb]; exact le_of_lt hlt
      · exact le_trans (ha b hb) (le_of_lt hlt)
    · refine List.pairwise_cons.mpr ⟨?_, ih hrest⟩
      intro b hb
      rcases (mem_link x b rest).mp hb with hb | hb
      · rw [hb]; exact not_lt.mp hlt
      · exact ha b hb

theorem by_priority_link_all (ts : List thread) : by_priority (link_all ts) := by
  induction ts using List.reverseRecOn with
  | nil => exact List.Pairwise.nil
  | append_singleton ts t ih =>
    rw [link_all_append_singleton]
    exact by_priority_link t _ ih

theorem mem_link_all (ts : List thread) (v : thread) : v ∈ link_all ts ↔ v ∈ ts := by
  induction ts using List.reverseRecOn with
  | nil => simp [link_all]
  | append_singleton ts t ih =>
    rw [link_all_append_singleton, mem_link, ih]
    simp only [List.mem_append, List.mem_singleton]
    tauto

theorem link_cons (x a : thread) (rest : Waiting_threads_list) :
    link x (a :: rest) = if a.prio < x.prio then x :: a :: rest else a :: link x rest := rfl

theorem link_of_all_lower (x : thread) (l : Waiting_threads_list)
    (h : ∀ v ∈ l, v.prio < x.prio) : link x l = x :: l := by
  cases l with
  | nil => rfl
  | cons a rest =>
    unfold link
    rw [if_pos (h a (List.mem_cons_self a rest))]

theorem erase_link_of_not_mem (t : thread) (l : Waiting_threads_list) (h : t ∉ l) :
    (link t l).erase t = l := by
  induction l with
  | nil => simp [link]
  | cons a rest ih =>
    have hat : a ≠ t := fun e => h (e ▸ List.mem_cons_self a rest)
    have hrest : t ∉ rest := fun hm => h (List.mem_cons_of_mem a hm)
    unfold link
    split_ifs
    · exact List.erase_cons_head t _
    · rw [List.erase_cons_tail (by simpa using hat), ih hrest]

theorem erase_link_of_mem (x t : thread) (l : Waiting_threads_list) (hs : by_priority l)
    (h : t ∈ l) : (link x l).erase t = link x (l.erase t) := by
  induction l with
  | nil => exact absurd h (List.not_mem_nil t)
  | cons a rest ih =>
    obtain ⟨ha, hrest⟩ := List.pairwise_cons.mp hs
    by_cases hlt : a.prio < x.prio
    · have hall : ∀ v ∈ a :: rest, v.prio < x.prio := by
        intro v hv
        rcases List.mem_cons.mp hv with hv | hv
        · rw [hv]; exact hlt
        · exact lt_of_le_of_lt (ha v hv) hlt
      have hxt : x ≠ t := fun e => absurd (hall t h) (e ▸ lt_irrefl x.prio)
      have hall2 : ∀ v ∈ (a :: rest).erase t, v.prio < x.prio :=
        fun v hv => hall v (List.mem_of_mem_erase hv)
      rw [link_of_all_lower x _ hall, link_of_all_lower x _ hall2,
        List.erase_cons_tail (by simpa using hxt)]
    · by_cases hat : a = t
      · subst hat
        have e1 : link x (a :: rest) = a :: link x rest := by
          rw [link_cons, if_neg hlt]
        rw [e1, List.erase_cons_head, List.erase_cons_head]
      · have hmem : t ∈ rest := by
          rcases List.mem_cons.mp h with h | h
          · exact absurd h.symm hat
          · exact h
        have e1 : link x (a :: rest) = a :: link x rest := by
          rw [link_cons, if_neg hlt]
        have e2 : link x (a :: rest.erase t) = a :: link x (rest.erase t) := by
          rw [link_cons, if_neg hlt]
        rw [e1, List.erase_cons_tail (by simpa using hat),
          List.erase_cons_tail (by simpa using hat), ih hrest hmem, e2]

/-- Removing a thread from the waiting list gives the list the remaining
threads build by themselves, in their order of arrival. -/
theorem erase_link_all (ts : List thread) (t : thread) :
    (link_all ts).erase t = link_all (ts.erase t) := by
  induction ts using List.reverseRecOn with
  | nil => simp [link_all]
  | append_singleton ts x ih =>
    rw [link_all_append_singleton]
    by_cases hmem : t ∈ ts
    · rw [List.erase_append_left _ hmem, link_all_append_singleton, ← ih]
      exact erase_link_of_mem x t _ (by_priority_link_all ts) ((mem_link_all ts t).mpr hmem)
    · rw [List.erase_append_right _ hmem]
      have hnl : t ∉ link_all ts := fun hm => hmem ((mem_link_all ts t).mp hm)
      by_cases hxt : x = t
      · subst hxt
        rw [erase_link_of_not_mem x _ hnl, List.erase_cons_head, List.append_nil]
      · rw [List.erase_cons_tail (by simpa using hxt), List.erase_nil,
          link_all_append_singleton]
        apply List.erase_of_not_mem
        intro hm
        rcases (mem_link x t _).mp hm with hm | hm
        · exact hxt hm.symm
        · exact hnl hm

theorem reset_wake_link_all (l : Waiting_threads_list) (ts : List thread) (count : Int)
    (h : l = link_all ts) :
    (reset_wake l count).2.2 = link_all ((reset_wake l count).2.1.foldl List.erase ts) := by
  induction l generalizing ts count with
  | nil => exact h
  | cons w rest ih =>
    have hrest : rest = link_all (ts.erase w) := by
      rw [← erase_link_all, ← h, List.erase_cons_head]
    rw [reset_wake_cons]
    split_ifs
    · exact ih (ts.erase w) _ hrest
    · exact h

theorem apply_list_is_link_all (o : operation) (s : semaphore) (ts : List thread)
    (h : s.list_ = link_all ts) :
    (apply o s).sem.list_ = link_all (arrivals_after o s ts) := by
  cases o with
  | post f =>
    show (post f s).sem.list_ = link_all ((post f s).woken.foldl List.erase ts)
    unfold post
    split_ifs
    · exact h
    · exact h
    · cases hl : s.list_ with
      | nil => exact hl.symm.trans h
      | cons w rest =>
        show rest = link_all (ts.erase w)
        rw [← erase_link_all, ← h, hl, List.erase_cons_head]
  | wait c =>
    simp only [apply, arrivals_after, wait, _try_wait]
    split_ifs <;> first
      | exact h
      | contradiction
      | (simp only [link_all_append_singleton, h])
  | try_wait c i f =>
    simp only [apply, arrivals_after, try_wait, _try_wait]
    split_ifs <;> exact h
  | timed_wait c v =>
    simp only [apply, arrivals_after, timed_wait, _try_wait]
    split_ifs <;> first
      | exact h
      | contradiction
      | (simp only [link_all_append_singleton, h])
  | reset i =>
    show (reset i s).sem.list_ = link_all ((reset i s).woken.foldl List.erase ts)
    unfold reset
    split_ifs
    · exact h
    · exact reset_wake_link_all s.list_ ts s.initial_count_ h
  | timer_fired t =>
    simp only [apply, arrivals_after, timer_fired, unlink]
    split_ifs
    · show s.list_.erase t = link_all (ts.erase t)
      rw [h, erase_link_all]
    · exact h
  | interrupted t =>
    simp only [apply, arrivals_after, interrupted, unlink]
    split_ifs
    · show s.list_.erase t = link_all (ts.erase t)
      rw [h, erase_link_all]
    · exact h
  | faulted t =>
    simp only [apply, arrivals_after, faulted, unlink]
    split_ifs
    · show s.list_.erase t = link_all (ts.erase t)
      rw [h, erase_link_all]
    · exact h

/-- In every state the operations reach, the waiting list is the registration
list of the current waiters taken in their order of arrival. -/
theorem run_list_is_link_all (ops : List operation) (s : semaphore) (ts : List thread)
    (h : s.list_ = link_all ts) : (run ops s).list_ = link_all (arrivals ops s ts) := by
  induction ops generalizing s ts with
  | nil => exact h
  | cons o rest ih => exact ih (apply o s).sem _ (apply_list_is_link_all o s ts h)

/-! ### No waiter is left in the list while the count is nonzero -/

theorem reset_wake_rest (l : Waiting_threads_list) (count : Int)
    (h : (reset_wake l count).2.2 ≠ []) : (reset_wake l count).1 ≤ 0 := by
  induction l generalizing count with
  | nil => exact absurd rfl h
  | cons w rest ih =>
    rw [reset_wake_cons] at h ⊢
    by_cases hpos : count > 0
    · rw [if_pos hpos] at h ⊢
      exact ih _ h
    · rw [if_neg hpos]
      exact not_lt.mp hpos

theorem erase_ne_nil (t : thread) (l : Waiting_threads_list) (h : l.erase t ≠ []) : l ≠ [] := by
  intro hl
  rw [hl] at h
  exact h rfl

theorem _try_wait_list (s : semaphore) : (_try_wait s).2.list_ = s.list_ := by
  unfold _try_wait
  split_ifs <;> rfl

theorem _try_wait_true (s : semaphore) (h : (_try_wait s).1 = true) : 0 < s.count_ := by
  unfold _try_wait at h
  by_cases hpos : s.count_ > 0
  · exact hpos
  · rw [if_neg hpos] at h
    exact absurd h Bool.false_ne_true

theorem _try_wait_false (s : semaphore) (h : ¬ (_try_wait s).1 = true) : ¬ 0 < s.count_ := by
  intro hpos
  apply h
  unfold _try_wait
  rw [if_pos hpos]

theorem _try_wait_waiters (s : semaphore) (hz : waiters_only_at_zero s)
    (h : (_try_wait s).1 = true) : waiters_only_at_zero (_try_wait s).2 := by
  intro hne
  rw [_try_wait_list] at hne
  have h0 := hz hne
  have hpos := _try_wait_true s h
  omega

theorem apply_keeps_waiters (o : operation) (s : semaphore) (h : counter_ok s)
    (hz : waiters_only_at_zero s) : waiters_only_at_zero (apply o s).sem := by
  obtain ⟨h1, h2, h3, h4, h5⟩ := h
  have hblock : ¬ (_try_wait s).1 = true → s.count_ = 0 := by
    intro hf
    have := _try_wait_false s hf
    omega
  cases o with
  | post f =>
    show waiters_only_at_zero (post f s).sem
    unfold post
    split_ifs
    · exact hz
    · exact hz
    · cases hl : s.list_ with
      | nil => exact fun hne => absurd rfl hne
      | cons w rest =>
        intro _
        exact hz (by rw [hl]; simp)
  | wait c =>
    simp only [apply, wait]
    split_ifs with _ ht
    · exact hz
    · exact _try_wait_waiters s hz ht
    · exact hz
    · exact fun _ => hblock ht
  | try_wait c i f =>
    simp only [apply, try_wait]
    split_ifs with _ ht
    · exact hz
    · exact _try_wait_waiters s hz ht
    · exact hz
    · exact hz
    · exact hz
    · exact hz
  | timed_wait c v =>
    simp only [apply, timed_wait]
    split_ifs with _ _ ht
    · exact hz
    · exact hz
    · exact _try_wait_waiters s hz ht
    · exact hz
    · exact fun _ => hblock ht
  | reset i =>
    show waiters_only_at_zero (reset i s).sem
    unfold reset
    split_ifs
    · exact hz
    · intro hne
      have hle := reset_wake_rest s.list_ s.initial_count_ hne
      have hge := (reset_wake_count s.list_ s.initial_count_ h1
        (le_trans h2 h3)).1
      exact le_antisymm hle hge
  | timer_fired t =>
    simp only [apply, timer_fired, unlink]
    split_ifs
    · exact fun hne => hz (erase_ne_nil t _ hne)
    · exact hz
  | interrupted t =>
    simp only [apply, interrupted, unlink]
    split_ifs
    · exact fun hne => hz (erase_ne_nil t _ hne)
    · exact hz
  | faulted t =>
    simp only [apply, faulted, unlink]
    split_ifs
    · exact fun hne => hz (erase_ne_nil t _ hne)
    · exact hz

/-- Section 3 and 5 of the specification hold in the model: starting from a
state that satisfies the counter discipline and has waiters only at count
zero (every freshly constructed semaphore with a non-negative initial count
does, its list being empty), every sequence of operations leads to a state in
which the waiting list is non-empty only when the count is zero. -/
theorem run_keeps_waiters (ops : List operation) (s : semaphore) (h : counter_ok s)
    (hz : waiters_only_at_zero s) : waiters_only_at_zero (run ops s) := by
  induction ops generalizing s with
  | nil => exact hz
  | cons o rest ih =>
    exact ih (apply o s).sem (apply_keeps o s h).1 (apply_keeps_waiters o s h hz)

/-! ### The scenarios of section 8 of the specification -/

/-- Scenario 2: a counting semaphore with initial count `0` and max count `3`.
Three `post ()` calls succeed and the value goes `1`, `2`, `3`; the fourth
returns `EAGAIN`. -/
theorem scenario_three_posts_then_EAGAIN :
    (post false ⟨"c", [], none, 0, 0, 3⟩).res = some result_t.ok ∧
      (value (post false ⟨"c", [], none, 0, 0, 3⟩).sem).1 = 1 ∧
      (post false ⟨"c", [], none, 0, 1, 3⟩).res = some result_t.ok ∧
      (value (post false ⟨"c", [], none, 0, 1, 3⟩).sem).1 = 2 ∧
      (post false ⟨"c", [], none, 0, 2, 3⟩).res = some result_t.ok ∧
      (value (post false ⟨"c", [], none, 0, 2, 3⟩).sem).1 = 3 ∧
      (post false ⟨"c", [], none, 0, 3, 3⟩).res = some result_t.EAGAIN ∧
      (value (post false ⟨"c", [], none, 0, 3, 3⟩).sem).1 = 3 := by
  decide

/-- Scenario 4: thread A blocks in `wait ()` on a semaphore at count `0`; a
`post ()` readies A by hand-off, and the value is `0` afterwards, with A no
longer queued. -/
theorem scenario_post_hands_unit_to_blocked_thread :
    (wait ⟨⟨1, 5⟩, false, false⟩ ⟨"c", [], none, 0, 0, 3⟩).res = none ∧
      (wait ⟨⟨1, 5⟩, false, false⟩ ⟨"c", [], none, 0, 0, 3⟩).sem =
        ⟨"c", [⟨1, 5⟩], none, 0, 0, 3⟩ ∧
      (post false ⟨"c", [⟨1, 5⟩], none, 0, 0, 3⟩).res = some result_t.ok ∧
      (post false ⟨"c", [⟨1, 5⟩], none, 0, 0, 3⟩).woken = [⟨1, 5⟩] ∧
      (post false ⟨"c", [⟨1, 5⟩], none, 0, 0, 3⟩).sem = ⟨"c", [], none, 0, 0, 3⟩ ∧
      (value (post false ⟨"c", [⟨1, 5⟩], none, 0, 0, 3⟩).sem).1 = 0 := by
  decide

end semaphore

end rtos

end os
